import Mathlib

/-
Verification of the tx-fees event-to-fee pipeline.

Shallow embedding of the Rust sources:
  * src/helpers.rs                 (store_block, store_tx, calculate_tx_fee_usdt)
  * src/components/job_executor.rs (avg_ts_to_block_number, find_closest_block,
                                    get_events_range, JobExecutorApp::run)
  * src/components/api/jobs.rs     (BatchJobStatus, get_job_status)

Conventions:
  * Rust u64 / u128 values are Nat; i64 values are Int.  Where u64/i64
    overflow matters (saturating ops, the wrapping i64 subtraction in the
    seed estimate, the `estimated_block - 1` underflow) it is modelled
    explicitly; elsewhere the values stay abstract naturals/integers.
  * f64 arithmetic is modelled by exact rational arithmetic (ℚ).  Every
    claim touching floats carries an explicit tolerance (1e-3) that is many
    orders of magnitude above any double-rounding error, so the exact model
    settles the claims.
  * Async I/O (RPC provider, price API, Postgres, Redis) is modelled by
    explicit environments: the chain is a total map from block number to
    header data, the fallible calls return Except values, and the database
    is threaded state.  Rust `?` propagation becomes Except propagation
    that also returns the database state reached so far (the real Postgres
    keeps all writes performed before the failure).
  * HashSet / HashMap iteration order is unspecified in Rust; the embedding
    uses first-occurrence order lists.  Every property proved about them
    (counts, nodup, grouping keys) is invariant under reordering.
-/

/-- Two to the sixty-four, the number of u64 values. -/
def u64Size : Nat := 2 ^ 64

/-- Wrap an unbounded integer into the i64 value range, the semantics of a
Rust i64 subtraction in release mode. -/
def i64wrap (x : Int) : Int := (x + 2 ^ 63) % 2 ^ 64 - 2 ^ 63

/-- Seed estimate of `find_closest_block`, translated from
`avg_ts_to_block_number` in src/components/job_executor.rs (the identical
copy lives in src/components/batch.rs).  `block_num_diff` is the Rust i64
expression `(src_ts - target_ts) / avg_block_time` (truncating division on
a possibly-wrapped i64 difference); the positive branch is
`src_block_num.saturating_sub(block_num_diff as u64)` (Nat subtraction),
the negative branch is
`src_block_num.saturating_add(block_num_diff.unsigned_abs())` (addition
capped at the u64 maximum). -/
def avg_ts_to_block_number (avg_block_time : Int) (target_ts src_ts : Int)
    (src_block_num : Nat) : Nat :=
  let block_num_diff : Int := Int.tdiv (i64wrap (src_ts - target_ts)) avg_block_time
  if 0 ≤ block_num_diff then
    src_block_num - block_num_diff.toNat
  else
    min (src_block_num + block_num_diff.natAbs) (u64Size - 1)

/-- Spec-side seed estimate, written from the words of the spec and of
claim C5: `diffBlocks = floor((srcTimestamp - targetTimestamp) / A)` using
truncating integer division; if `diffBlocks ≥ 0`, subtract it (floored at
0) from the source block number, else add its absolute value (no mention
of any saturation cap on the addition). -/
def avg_ts_to_block_number_spec (avg_block_time : Int) (target_ts src_ts : Int)
    (src_block_num : Nat) : Nat :=
  let diffBlocks : Int := Int.tdiv (src_ts - target_ts) avg_block_time
  if 0 ≤ diffBlocks then
    src_block_num - diffBlocks.toNat
  else
    src_block_num + diffBlocks.natAbs

/-- Amended spec-side seed estimate: same as `avg_ts_to_block_number_spec`
except that the addition in the negative branch saturates at the u64
maximum, as the code's `saturating_add` does. -/
def avg_ts_to_block_number_spec_sat (avg_block_time : Int) (target_ts src_ts : Int)
    (src_block_num : Nat) : Nat :=
  let diffBlocks : Int := Int.tdiv (src_ts - target_ts) avg_block_time
  if 0 ≤ diffBlocks then
    src_block_num - diffBlocks.toNat
  else
    min (src_block_num + diffBlocks.natAbs) (u64Size - 1)

/-- Chain model backing the RPC provider: a total assignment of a
timestamp and a hash to every block number, plus the latest block number.
`get_block(n)` on a live node returns the header of block `n`; its
`header.number` equals `n`, its `header.timestamp` is `ts n` and its
`header.hash` is `hashOf n`. -/
structure Chain where
  ts : Nat → Int
  latest : Nat
  hashOf : Nat → String

/-- Failure modes of the embedded `find_closest_block`: `underflow` models
the Rust panic of evaluating `estimated_block - 1` on u64 with
`estimated_block = 0`; `fuel` is the embedding artifact standing for
non-termination of the unbounded Rust `loop`. -/
inductive FcbErr where
  | underflow : FcbErr
  | fuel : FcbErr
deriving DecidableEq, Repr

/-- Refinement loop of `find_closest_block` (src/components/job_executor.rs,
the `loop` body), with an explicit fuel bound and a counter of re-seeding
iterations.  `AVG_BLOCK_TIME` is the constant 12.  Each arm mirrors the
source: exact match; target between current and next (return the closer,
ties to next); target less than current by under one interval (inspect the
previous block, which underflows at block 0, or re-seed from current);
otherwise re-seed from next. -/
def fcbLoop (ts : Nat → Int) (target_ts : Int) (estimated_block : Nat)
    (reseeds : Nat) : Nat → Except FcbErr (Nat × Nat)
  | 0 => .error .fuel
  | fuelLeft + 1 =>
    let current_ts := ts estimated_block
    if target_ts = current_ts then
      .ok (estimated_block, reseeds)
    else
      let next_ts := ts (estimated_block + 1)
      if target_ts ≥ current_ts ∧ target_ts ≤ next_ts then
        let diff_to_current := target_ts - current_ts
        let diff_to_next := next_ts - target_ts
        .ok (if diff_to_current < diff_to_next then estimated_block
             else estimated_block + 1, reseeds)
      else if target_ts < current_ts ∧ current_ts - target_ts < 12 then
        if estimated_block = 0 then
          .error .underflow
        else if target_ts ≥ ts (estimated_block - 1) then
          .ok (estimated_block - 1, reseeds)
        else
          fcbLoop ts target_ts
            (avg_ts_to_block_number 12 target_ts current_ts estimated_block)
            (reseeds + 1) fuelLeft
      else
        fcbLoop ts target_ts
          (avg_ts_to_block_number 12 target_ts next_ts (estimated_block + 1))
          (reseeds + 1) fuelLeft

/-- Embedded `find_closest_block`: seed from the latest block, then run the
refinement loop.  The result carries the returned block number and the
number of re-seeding iterations performed. -/
def find_closest_block (c : Chain) (target_ts : Int) (fuel : Nat) :
    Except FcbErr (Nat × Nat) :=
  fcbLoop c.ts target_ts
    (avg_ts_to_block_number 12 target_ts (c.ts c.latest) c.latest) 0 fuel

/-- Failure modes of the pipeline: RPC / price / queue failures, and the
unique-key violation raised by Postgres on a duplicate INSERT. -/
inductive Err where
  | rpc : Err
  | price : Err
  | noRow : Err
  | uniqueViolation : Err
  | fcb : FcbErr → Err
deriving DecidableEq, Repr

/-- Receipt data used by the pipeline: `block_number`, `effective_gas_price`
and `gas_used` of a confirmed transaction (alloy's
`receipt.block_number.unwrap()` is modelled by a total field). -/
structure Receipt where
  block_number : Nat
  effective_gas_price : Nat
  gas_used : Nat

/-- Association-list counterpart of
`map.entry(block_num).or_insert_with(Vec::new).push(v)`. -/
def insertGroup {α : Type} (m : List (Nat × List α)) (k : Nat) (v : α) :
    List (Nat × List α) :=
  match m with
  | [] => [(k, [v])]
  | (k', vs) :: rest =>
    if k' = k then (k', vs ++ [v]) :: rest
    else (k', vs) :: insertGroup rest k v

/-- Receipt loop of `get_events_range`: the
`for tx_hash in unique_txs` body, fetching each receipt (`?`-propagating
RPC failures) and pushing `(txHash, effectiveGasPrice, gasUsed)` into the
group of the receipt's confirming block number. -/
def receiptsFold (receiptOf : String → Except Err Receipt) :
    List String → List (Nat × List (String × Nat × Nat)) →
    Except Err (List (Nat × List (String × Nat × Nat)))
  | [], events_by_block => .ok events_by_block
  | tx_hash :: rest, events_by_block =>
    match receiptOf tx_hash with
    | .error e => .error e
    | .ok receipt =>
      receiptsFold receiptOf rest
        (insertGroup events_by_block receipt.block_number
          (tx_hash, receipt.effective_gas_price, receipt.gas_used))

/-- Embedded `get_events_range` (src/components/job_executor.rs): fetch the
logs for the filter, deduplicate the transaction hashes (the Rust HashSet,
modelled by a dedup list — every property proved about the result is
order-invariant), fetch each receipt and group by confirming block number,
then key each group by `(blockNumber, blockTimestamp)`.  `getLogs` and
`receiptOf` are the fallible RPC calls; the block-timestamp lookup goes
through the total chain model. -/
def get_events_range (c : Chain)
    (getLogs : Nat → Nat → Except Err (List (Option String)))
    (receiptOf : String → Except Err Receipt) (from_block to_block : Nat) :
    Except Err (List ((Nat × Int) × List (String × Nat × Nat))) :=
  match getLogs from_block to_block with
  | .error e => .error e
  | .ok logs =>
    let unique_txs := (logs.filterMap id).dedup
    match receiptsFold receiptOf unique_txs [] with
    | .error e => .error e
    | .ok events_by_block =>
      .ok (events_by_block.map (fun g => ((g.1, c.ts g.1), g.2)))

/-- Row of the `batch_jobs` table. -/
structure JobRow where
  start_time : Int
  end_time : Int
  start_block : Option Int
  end_block : Option Int
  status : String

/-- Persistent store: the `batch_jobs`, `blocks` and `txs` tables.
Modelled from the spec: the migrations directory is not part of src/, so
the table shapes follow §6 of the spec — `blocks(hash PK, number,
eth_usdt)` and `txs(hash PK, block_hash, fee_usdt)`; the primary keys make
a duplicate INSERT a unique-key violation. -/
structure DB where
  jobs : Nat → Option JobRow
  blocks : List (String × Int × ℚ)
  txs : List (String × String × ℚ)

/-- Empty store. -/
def DB.empty : DB := ⟨fun _ => none, [], []⟩

/-- Embedded `store_block` (src/helpers.rs; src/components/realtime_data.rs
carries an identical copy): a plain
`INSERT INTO blocks (hash, number, eth_usdt) VALUES ($1, $2, $3)` with no
ON CONFLICT clause, so inserting an already-present hash surfaces the
unique-key violation as an error to the caller. -/
def store_block (db : DB) (block_number : Int) (block_hash : String)
    (eth_usdt : ℚ) : Except Err DB :=
  if db.blocks.any (fun r => r.1 = block_hash) then .error .uniqueViolation
  else .ok { db with blocks := db.blocks ++ [(block_hash, block_number, eth_usdt)] }

/-- Embedded `store_tx` (src/helpers.rs): plain
`INSERT INTO txs (hash, block_hash, fee_usdt) VALUES ($1, $2, $3)`. -/
def store_tx (db : DB) (tx_hash block_hash : String) (fee_usdt : ℚ) :
    Except Err DB :=
  if db.txs.any (fun r => r.1 = tx_hash) then .error .uniqueViolation
  else .ok { db with txs := db.txs ++ [(tx_hash, block_hash, fee_usdt)] }

/-- Embedded `calculate_tx_fee_usdt` (src/helpers.rs), the f64 expression
`(gas_price as f64 * gas_used as f64 * 1e-18) * eth_usdt` modelled over
exact rationals. -/
def calculate_tx_fee_usdt (gas_price : Nat) (gas_used : Nat) (eth_usdt : ℚ) : ℚ :=
  ((gas_price : ℚ) * (gas_used : ℚ) * (1 / 10 ^ 18)) * eth_usdt

/-- External world of the batch worker: the chain model, the fallible log
and receipt RPC calls, the fallible Binance price lookup, and the fuel
bound for the resolver's unbounded loop. -/
structure Env where
  chain : Chain
  getLogs : Nat → Nat → Except Err (List (Option String))
  receiptOf : String → Except Err Receipt
  price : Option Int → Except Err ℚ
  fuel : Nat

/-- Status-transition update performed by the
`UPDATE batch_jobs SET status = 'processing' ...` query. -/
def setProcessing (j : JobRow) : JobRow := { j with status := "processing" }

/-- Point update of one row of `batch_jobs`. -/
def updateJob (db : DB) (job_id : Nat) (f : JobRow → JobRow) : DB :=
  { db with jobs := fun i => if i = job_id then (db.jobs i).map f else db.jobs i }

/-- Sequential `store_tx` calls of the inner
`for (tx_hash, fee_usdt) in tx_fees` loop; on a failure the writes already
performed persist and the error propagates. -/
def storeTxs (db : DB) (block_hash : String) :
    List (String × ℚ) → DB × Except Err Unit
  | [] => (db, .ok ())
  | (tx_hash, fee_usdt) :: rest =>
    match store_tx db tx_hash block_hash fee_usdt with
    | .error e => (db, .error e)
    | .ok db' => storeTxs db' block_hash rest

/-- Per-block-group body of `JobExecutorApp::run`: re-fetch the block
header, look up the ETH price anchored at its timestamp, compute each fee
(the f64 expressions `(gas_price as f64 * gas_used as f64) / 1e18` and
`fee_eth * eth_price` over exact rationals), store the block row, then the
fee rows. -/
def processGroups (env : Env) (db : DB) :
    List ((Nat × Int) × List (String × Nat × Nat)) → DB × Except Err Unit
  | [] => (db, .ok ())
  | ((block_num, _), txs) :: rest =>
    let block_hash := env.chain.hashOf block_num
    match env.price (some (env.chain.ts block_num)) with
    | .error e => (db, .error e)
    | .ok eth_price =>
      let tx_fees := txs.map (fun t =>
        (t.1, ((t.2.1 : ℚ) * (t.2.2 : ℚ) / 10 ^ 18) * eth_price))
      match store_block db (block_num : Int) block_hash eth_price with
      | .error e => (db, .error e)
      | .ok db' =>
        match storeTxs db' block_hash tx_fees with
        | (db'', .error e) => (db'', .error e)
        | (db'', .ok _) => processGroups env db'' rest

/-- One iteration of the `JobExecutorApp::run` queue loop
(src/components/job_executor.rs), from one `BRPOP` delivery to the next:
load the delivered job (absent row fails the `fetch_one`); discard the
delivery if the status is not `pending`; otherwise set the status to
`processing`, resolve the block bounds, persist them, scan the range and
process each block group, and finally mark the job `completed`.  The
returned pair is the database state reached and the outcome; an error
outcome leaves all writes performed before the failure in place, as `?`
propagation over the live Postgres connection does. -/
def runIteration (env : Env) (db : DB) (delivery : Option Nat) :
    DB × Except Err Unit :=
  match delivery with
  | none => (db, .ok ())
  | some job_id =>
    match db.jobs job_id with
    | none => (db, .error .noRow)
    | some job =>
      if job.status ≠ "pending" then (db, .ok ())
      else
        let db1 := updateJob db job_id setProcessing
        match find_closest_block env.chain job.start_time env.fuel with
        | .error e => (db1, .error (.fcb e))
        | .ok (start_block, _) =>
          match find_closest_block env.chain job.end_time env.fuel with
          | .error e => (db1, .error (.fcb e))
          | .ok (end_block, _) =>
            let db2 := updateJob db1 job_id (fun j =>
              { j with start_block := some (start_block : Int),
                       end_block := some (end_block : Int) })
            match get_events_range env.chain env.getLogs env.receiptOf
                start_block end_block with
            | .error e => (db2, .error e)
            | .ok events =>
              match processGroups env db2 events with
              | (db3, .error e) => (db3, .error e)
              | (db3, .ok _) =>
                (updateJob db3 job_id (fun j => { j with status := "completed" }),
                 .ok ())

/-- Job status enumeration of the API layer (src/components/api/jobs.rs). -/
inductive BatchJobStatus where
  | pending : BatchJobStatus
  | inProgress : BatchJobStatus
  | completed : BatchJobStatus
deriving DecidableEq, Repr

/-- Display impl of `BatchJobStatus` (src/components/api/jobs.rs lines
36-44). -/
def BatchJobStatus.display : BatchJobStatus → String
  | .pending => "pending"
  | .inProgress => "in_progress"
  | .completed => "completed"

/-- Status parser of `get_job_status` (src/components/api/jobs.rs lines
161-173): the `match job.status.as_str()` arms, with the catch-all arm
returning `none` (the handler then answers 500). -/
def parseJobStatus (s : String) : Option BatchJobStatus :=
  if s = "pending" then some .pending
  else if s = "in_progress" then some .inProgress
  else if s = "completed" then some .completed
  else none

/-- HTTP outcomes of the `get_job_status` handler. -/
inductive JobStatusResponse where
  | ok : Nat → BatchJobStatus → Int → Int → JobStatusResponse
  | notFound : JobStatusResponse
  | internalError : JobStatusResponse
deriving DecidableEq, Repr

/-- Embedded `get_job_status` handler (src/components/api/jobs.rs): fetch
the row by id (404 when absent), parse its status string (500 when the
string is not one of the three recognised statuses), else 200 with the
parsed status and the time window. -/
def get_job_status (db : DB) (job_id : Nat) : JobStatusResponse :=
  match db.jobs job_id with
  | none => .notFound
  | some job =>
    match parseJobStatus job.status with
    | none => .internalError
    | some st => .ok job_id st job.start_time job.end_time



/-! Helper lemmas. -/

theorem i64wrap_eq_self {x : Int} (h1 : -(2 ^ 63) ≤ x) (h2 : x < 2 ^ 63) :
    i64wrap x = x := by
  unfold i64wrap
  rw [Int.emod_eq_of_lt (by omega) (by omega)]
  omega

example : avg_ts_to_block_number 12 1697886400 1697890000 17000000 = 16999700 := by decide
example : avg_ts_to_block_number 12 1697889995 1697890000 17000000 = 17000000 := by decide
example : avg_ts_to_block_number 12 1697889988 1697890000 17000000 = 16999999 := by decide

/-! Claim theorems. -/

/-- C7: `calculate_tx_fee_usdt` is a pure total function satisfying
`fee = (gasPriceWei * gasUsed) * 1e-18 * quoteRate`; in particular
`fee(50_000_000_000, 21000, 2500.0) = 2.625` and
`fee(1_000_000_000, 21000, 2000.0) = 0.042`, each within absolute
tolerance 1e-3 (the equalities are exact in the rational model, so the
tolerance bound follows). -/
theorem calculate_tx_fee_usdt_values :
    calculate_tx_fee_usdt 50000000000 21000 2500 = 2.625 ∧
    |calculate_tx_fee_usdt 50000000000 21000 2500 - 2.625| < 1 / 1000 ∧
    calculate_tx_fee_usdt 1000000000 21000 2000 = 0.042 ∧
    |calculate_tx_fee_usdt 1000000000 21000 2000 - 0.042| < 1 / 1000 := by
  refine ⟨?_, ?_, ?_, ?_⟩ <;> norm_num [calculate_tx_fee_usdt]

/-- C5 counterexample: at `A = 1`, `srcTs = -(2^62)`, `targetTs = 0` and
`B = 2^64 - 1` (all machine-representable), `diffBlocks = -(2^62)` is
negative and the code's `saturating_add` caps the result at the u64
maximum, so the code does not return `B + |diffBlocks|` as the claim
states. -/
theorem avg_ts_to_block_number_saturates :
    avg_ts_to_block_number 1 0 (-(2 ^ 62)) (2 ^ 64 - 1) ≠
      avg_ts_to_block_number_spec 1 0 (-(2 ^ 62)) (2 ^ 64 - 1) := by decide

/-- C5 (amended): for every `A > 0` and machine inputs whose timestamp
difference is i64-representable, the seed estimate computes
`diffBlocks = trunc((srcTs - targetTs) / A)` and returns `B - diffBlocks`
floored at 0 when `diffBlocks ≥ 0`, else `B + |diffBlocks|` saturated at
the u64 maximum `2^64 - 1`. -/
theorem avg_ts_to_block_number_spec_ok (A target_ts src_ts : Int) (B : Nat)
    (_hA : 0 < A) (h1 : -(2 ^ 63) ≤ src_ts - target_ts)
    (h2 : src_ts - target_ts < 2 ^ 63) :
    avg_ts_to_block_number A target_ts src_ts B =
      avg_ts_to_block_number_spec_sat A target_ts src_ts B := by
  unfold avg_ts_to_block_number avg_ts_to_block_number_spec_sat
  rw [i64wrap_eq_self h1 h2]

/-- C5 witness: the amended statement at a concrete input. -/
theorem avg_ts_to_block_number_spec_ok_witness :
    avg_ts_to_block_number 12 40 100 5 = avg_ts_to_block_number_spec_sat 12 40 100 5 :=
  avg_ts_to_block_number_spec_ok 12 40 100 5 (by norm_num) (by norm_num) (by norm_num)

/-- C1: evaluation of `store_block` at the failing input.  The first
insert of hash "0xabc" succeeds leaving exactly one row; the second
insert of the same hash surfaces the unique-key violation to its caller
instead of being an idempotent no-op (the INSERT has no ON CONFLICT
clause). -/
theorem store_block_duplicate_errors :
    ∃ db1, store_block DB.empty 1 "0xabc" 2500 = .ok db1 ∧
      db1.blocks.length = 1 ∧
      store_block db1 2 "0xabc" 2600 = .error .uniqueViolation :=
  ⟨{ DB.empty with blocks := [("0xabc", 1, 2500)] }, rfl, rfl, rfl⟩

/-- C9: the status string "processing" written by the batch worker is not
among the strings the job-status endpoint parses, so every job stored with
status "processing" answers 500 internal-server-error on status lookup —
the intermediate state is never observable. -/
theorem processing_status_unparseable :
    (∀ j : JobRow, parseJobStatus (setProcessing j).status = none) ∧
    ∀ (db : DB) (job_id : Nat) (j : JobRow), db.jobs job_id = some j →
      j.status = "processing" → get_job_status db job_id = .internalError := by
  constructor
  · intro j
    simp [setProcessing, parseJobStatus]
  · intro db job_id j hload hst
    simp [get_job_status, hload, hst, parseJobStatus]

/-- C9 witness: a store holding one job with status "processing" answers
500 on lookup. -/
theorem processing_status_unparseable_witness :
    get_job_status ⟨fun i => if i = 3 then some ⟨0, 0, none, none, "processing"⟩ else none,
      [], []⟩ 3 = .internalError :=
  processing_status_unparseable.2
    ⟨fun i => if i = 3 then some ⟨0, 0, none, none, "processing"⟩ else none, [], []⟩
    3 ⟨0, 0, none, none, "processing"⟩ rfl rfl

/-- C10: the resolver's block-index arithmetic is not total — on the chain
whose block `n` carries timestamp `100 + 12n` with latest block 0, target
timestamp 95 drives the loop into the previous-block branch with
`estimated_block = 0`, where `estimated_block - 1` underflows u64 — while
the seed estimate itself always yields a valid u64 (its subtraction floors
at 0 and its addition saturates at `2^64 - 1`). -/
theorem find_closest_block_underflow :
    find_closest_block ⟨fun n => 100 + 12 * (n : Int), 0, fun _ => ""⟩ 95 5 =
      .error .underflow ∧
    ∀ (A target_ts src_ts : Int) (B : Nat), B < u64Size →
      avg_ts_to_block_number A target_ts src_ts B < u64Size := by
  constructor
  · rfl
  · intro A target_ts src_ts B hB
    have hu : u64Size = 18446744073709551616 := rfl
    simp only [avg_ts_to_block_number]
    rw [hu] at hB ⊢
    split
    · omega
    · omega

/-- C10 witness: the seed-estimate bound at a concrete input. -/
theorem find_closest_block_underflow_witness :
    avg_ts_to_block_number 12 0 1000 7 < u64Size :=
  find_closest_block_underflow.2 12 0 1000 7 (by decide)

/-- C4: whenever the refinement loop finds the target between the current
block's timestamp and the next block's timestamp inclusive (adjacent
blocks in chain order), it returns the one with the smaller absolute
distance to the target, and on an exact tie the later block. -/
theorem fcbLoop_tie_break (ts : Nat → Int) (target_ts : Int)
    (estimated_block reseeds fuel : Nat)
    (hadj : ts estimated_block < ts (estimated_block + 1))
    (hlo : ts estimated_block ≤ target_ts)
    (hhi : target_ts ≤ ts (estimated_block + 1)) :
    fcbLoop ts target_ts estimated_block reseeds (fuel + 1) =
      .ok (if target_ts - ts estimated_block < ts (estimated_block + 1) - target_ts
           then estimated_block else estimated_block + 1, reseeds) := by
  simp only [fcbLoop]
  by_cases h1 : target_ts = ts estimated_block
  · rw [if_pos h1, if_pos (by omega)]
  · rw [if_neg h1, if_pos ⟨hlo, hhi⟩]

/-- C4 witness: a target exactly halfway between the timestamps of blocks
3 and 4 (36 and 48) resolves to the later block 4. -/
theorem fcbLoop_tie_break_witness :
    fcbLoop (fun n => 12 * (n : Int)) 42 3 0 1 = .ok (4, 0) := by
  have h := fcbLoop_tie_break (fun n => 12 * (n : Int)) 42 3 0 0
    (by norm_num) (by norm_num) (by norm_num)
  norm_num at h
  exact h

/-- C3: on the synthetic chain whose block `n` has timestamp `T0 + 12n`
(12 being the resolver's average block interval), resolving `T0 + 12k` for
any valid `k ≤ latest` returns block `k` with zero re-seeding iterations
(hence zero or one), and already within fuel 1. -/
theorem find_closest_block_exact (T0 : Int) (L k : Nat) (hashOf : Nat → String)
    (hT0 : 0 ≤ T0) (hrange : T0 + 12 * (L : Int) < 2 ^ 63) (hk : k ≤ L) :
    find_closest_block ⟨fun n => T0 + 12 * (n : Int), L, hashOf⟩
      (T0 + 12 * (k : Int)) 1 = .ok (k, 0) := by
  have hseed : avg_ts_to_block_number 12 (T0 + 12 * (k : Int))
      (T0 + 12 * (L : Int)) L = k := by
    simp only [avg_ts_to_block_number]
    have hx : (T0 + 12 * (L : Int)) - (T0 + 12 * (k : Int)) =
        12 * ((L : Int) - (k : Int)) := by ring
    rw [hx, i64wrap_eq_self (by omega) (by omega),
      Int.mul_tdiv_cancel_left _ (by norm_num), if_pos (by omega)]
    omega
  dsimp only [find_closest_block]
  rw [hseed]
  simp [fcbLoop]

/-- C3 witness: on the chain with `T0 = 1000` and latest block 10, target
`1000 + 12·7 = 1084` resolves to block 7 with zero re-seeds. -/
theorem find_closest_block_exact_witness :
    find_closest_block ⟨fun n => 1000 + 12 * (n : Int), 10, fun _ => ""⟩ 1084 1 =
      .ok (7, 0) := by
  have h := find_closest_block_exact 1000 10 7 (fun _ => "")
    (by norm_num) (by norm_num) (by norm_num)
  norm_num at h
  exact h

/-- C2: a delivered job id whose loaded status is "processing" or
"completed" is discarded by the queue-loop guard: the iteration performs
no write at all — the store it hands to the next queue pop is exactly the
store it started from, so no status update, no block-bound write, and no
Block or FeeRecord row is persisted. -/
theorem runIteration_skips_nonpending (env : Env) (db : DB) (job_id : Nat)
    (job : JobRow) (hload : db.jobs job_id = some job)
    (hstatus : job.status = "processing" ∨ job.status = "completed") :
    runIteration env db (some job_id) = (db, .ok ()) := by
  have hne : job.status ≠ "pending" := by
    rcases hstatus with h | h <;> simp [h]
  simp [runIteration, hload, hne]

/-- C2 witness: a completed job redelivered to the worker leaves the store
untouched. -/
theorem runIteration_skips_nonpending_witness :
    runIteration
      ⟨⟨fun _ => 0, 0, fun _ => ""⟩, fun _ _ => .error .rpc,
        fun _ => .error .rpc, fun _ => .error .price, 0⟩
      ⟨fun i => if i = 5 then some ⟨0, 0, none, none, "completed"⟩ else none, [], []⟩
      (some 5) =
    (⟨fun i => if i = 5 then some ⟨0, 0, none, none, "completed"⟩ else none, [], []⟩,
      .ok ()) :=
  runIteration_skips_nonpending
    ⟨⟨fun _ => 0, 0, fun _ => ""⟩, fun _ _ => .error .rpc,
      fun _ => .error .rpc, fun _ => .error .price, 0⟩
    ⟨fun i => if i = 5 then some ⟨0, 0, none, none, "completed"⟩ else none, [], []⟩
    5 ⟨0, 0, none, none, "completed"⟩ rfl (Or.inr rfl)

theorem insertGroup_sum {β : Type} (m : List (Nat × List β)) (k : Nat) (v : β) :
    ((insertGroup m k v).map (fun g => g.2.length)).sum =
      (m.map (fun g => g.2.length)).sum + 1 := by
  induction m with
  | nil => simp [insertGroup]
  | cons hd tl ih =>
    obtain ⟨k', vs⟩ := hd
    simp only [insertGroup]
    split
    · simp only [List.map_cons, List.sum_cons, List.length_append]
      simp
      omega
    · simp only [List.map_cons, List.sum_cons, ih]
      omega

theorem insertGroup_elems {β : Type} (m : List (Nat × List β)) (k : Nat) (v : β) :
    List.Perm ((insertGroup m k v).map (fun g => g.2)).flatten
      (v :: (m.map (fun g => g.2)).flatten) := by
  induction m with
  | nil => simp [insertGroup]
  | cons hd tl ih =>
    obtain ⟨k', vs⟩ := hd
    simp only [insertGroup]
    split
    · simp only [List.map_cons, List.flatten_cons]
      exact (List.perm_append_singleton v vs).append_right _
    · simp only [List.map_cons, List.flatten_cons]
      exact ((ih.append_left vs).trans List.perm_middle)

theorem insertGroup_inv {β : Type} (P : β → Nat → Prop) (m : List (Nat × List β))
    (k : Nat) (v : β) (hm : ∀ g ∈ m, ∀ e ∈ g.2, P e g.1) (hv : P v k) :
    ∀ g ∈ insertGroup m k v, ∀ e ∈ g.2, P e g.1 := by
  induction m with
  | nil =>
    intro g hg e he
    simp only [insertGroup, List.mem_singleton] at hg
    subst hg
    simp only [List.mem_singleton] at he
    subst he
    exact hv
  | cons hd tl ih =>
    obtain ⟨k', vs⟩ := hd
    simp only [insertGroup]
    split
    · next heq =>
      intro g hg e he
      rcases List.mem_cons.mp hg with h | h
      · subst h
        rcases List.mem_append.mp he with h' | h'
        · exact hm (k', vs) (List.mem_cons_self _ _) e h'
        · simp only [List.mem_singleton] at h'
          subst h'
          subst heq
          exact hv
      · exact hm g (List.mem_cons_of_mem _ h) e he
    · intro g hg e he
      rcases List.mem_cons.mp hg with h | h
      · subst h
        exact hm (k', vs) (List.mem_cons_self _ _) e he
      · exact ih (fun g' hg' => hm g' (List.mem_cons_of_mem _ hg')) g h e he

theorem receiptsFold_ok (rf : String → Receipt) (l : List String) :
    ∀ acc, receiptsFold (fun h => Except.ok (rf h)) l acc =
      .ok (l.foldl (fun a h => insertGroup a (rf h).block_number
        (h, (rf h).effective_gas_price, (rf h).gas_used)) acc) := by
  induction l with
  | nil => intro acc; rfl
  | cons hd tl ih =>
    intro acc
    simp only [receiptsFold, List.foldl_cons]
    exact ih _

theorem groupFoldl_sum {β σ : Type} (key : σ → Nat) (val : σ → β) (l : List σ) :
    ∀ acc, (((l.foldl (fun a s => insertGroup a (key s) (val s)) acc).map
      (fun g => g.2.length)).sum) = (acc.map (fun g => g.2.length)).sum + l.length := by
  induction l with
  | nil => intro acc; simp
  | cons hd tl ih =>
    intro acc
    simp only [List.foldl_cons, List.length_cons]
    rw [ih, insertGroup_sum]
    omega

theorem groupFoldl_elems {β σ : Type} (key : σ → Nat) (val : σ → β) (l : List σ) :
    ∀ acc, List.Perm
      (((l.foldl (fun a s => insertGroup a (key s) (val s)) acc).map (fun g => g.2)).flatten)
      ((l.map val) ++ (acc.map (fun g => g.2)).flatten) := by
  induction l with
  | nil => intro acc; simp
  | cons hd tl ih =>
    intro acc
    simp only [List.foldl_cons, List.map_cons, List.cons_append]
    have h1 := ih (insertGroup acc (key hd) (val hd))
    have h2 := (insertGroup_elems acc (key hd) (val hd)).append_left (tl.map val)
    exact h1.trans (h2.trans List.perm_middle)

theorem groupFoldl_inv {β σ : Type} (P : β → Nat → Prop) (key : σ → Nat)
    (val : σ → β) (hval : ∀ s, P (val s) (key s)) (l : List σ) :
    ∀ acc, (∀ g ∈ acc, ∀ e ∈ g.2, P e g.1) →
      ∀ g ∈ l.foldl (fun a s => insertGroup a (key s) (val s)) acc,
        ∀ e ∈ g.2, P e g.1 := by
  induction l with
  | nil => intro acc h; exact h
  | cons hd tl ih =>
    intro acc h
    exact ih _ (insertGroup_inv P acc _ _ h (hval hd))


theorem map_fst_of_entries (rf : String → Receipt) (l : List String) :
    (l.map (fun h => (h, (rf h).effective_gas_price, (rf h).gas_used))).map
      (fun e => e.1) = l := by
  induction l with
  | nil => rfl
  | cons a t ih => simp [ih]

theorem map_snd_of_keyed {β : Type} (f : Nat → Nat × Int)
    (E : List (Nat × List β)) :
    ((E.map (fun g => (f g.1, g.2))).map (fun g => g.2)) = E.map (fun g => g.2) := by
  induction E with
  | nil => rfl
  | cons a t ih => simp [ih]

theorem map_len_of_keyed {β : Type} (f : Nat → Nat × Int)
    (E : List (Nat × List β)) :
    ((E.map (fun g => (f g.1, g.2))).map (fun g => g.2.length)) =
      E.map (fun g => g.2.length) := by
  induction E with
  | nil => rfl
  | cons a t ih => simp [ih]

/-- C6: for any list of logs, the scanner's output contains exactly one
transaction entry per distinct transaction hash appearing in the logs (a
hash emitting several logs is counted once), no hash appears twice across
all block groups, and each entry sits in the group keyed by the
`(blockNumber, blockTimestamp)` of the block its receipt confirms it in. -/
theorem get_events_range_dedup (c : Chain) (rf : String → Receipt)
    (logs : List (Option String)) (from_block to_block : Nat) :
    ∃ out, get_events_range c (fun _ _ => .ok logs) (fun h => Except.ok (rf h))
        from_block to_block = .ok out ∧
      (out.map (fun g => g.2.length)).sum = (logs.filterMap id).dedup.length ∧
      (((out.map (fun g => g.2)).flatten.map (fun e => e.1)).Nodup) ∧
      ∀ g ∈ out, g.1.2 = c.ts g.1.1 ∧ ∀ e ∈ g.2, (rf e.1).block_number = g.1.1 := by
  simp only [get_events_range]
  rw [receiptsFold_ok]
  refine ⟨_, rfl, ?_, ?_, ?_⟩
  · have hk := map_len_of_keyed (fun n => (n, c.ts n))
      ((logs.filterMap id).dedup.foldl (fun a h => insertGroup a (rf h).block_number
        (h, (rf h).effective_gas_price, (rf h).gas_used)) [])
    rw [hk]
    have h := groupFoldl_sum (fun h => (rf h).block_number)
      (fun h => (h, (rf h).effective_gas_price, (rf h).gas_used))
      (logs.filterMap id).dedup []
    simpa using h
  · have hk := map_snd_of_keyed (fun n => (n, c.ts n))
      ((logs.filterMap id).dedup.foldl (fun a h => insertGroup a (rf h).block_number
        (h, (rf h).effective_gas_price, (rf h).gas_used)) [])
    rw [hk]
    have h := groupFoldl_elems (fun h => (rf h).block_number)
      (fun h => (h, (rf h).effective_gas_price, (rf h).gas_used))
      (logs.filterMap id).dedup []
    simp only [List.map_nil, List.flatten_nil, List.append_nil] at h
    have h2 := h.map (fun e : String × Nat × Nat => e.1)
    rw [map_fst_of_entries] at h2
    exact (h2.nodup_iff).mpr (List.nodup_dedup _)
  · intro g hg
    rcases List.mem_map.mp hg with ⟨g0, hg0, rfl⟩
    refine ⟨rfl, ?_⟩
    intro e he
    exact groupFoldl_inv (fun e k => (rf e.1).block_number = k)
      (fun h => (rf h).block_number)
      (fun h => (h, (rf h).effective_gas_price, (rf h).gas_used))
      (fun _ => rfl) (logs.filterMap id).dedup [] (by simp) g0 hg0 e he

theorem store_tx_jobs {db db' : DB} {a b : String} {f : ℚ}
    (h : store_tx db a b f = .ok db') : db'.jobs = db.jobs := by
  simp only [store_tx] at h
  split at h
  · simp at h
  · cases h
    rfl

theorem store_block_jobs {db db' : DB} {n : Int} {s : String} {p : ℚ}
    (h : store_block db n s p = .ok db') : db'.jobs = db.jobs := by
  simp only [store_block] at h
  split at h
  · simp at h
  · cases h
    rfl

theorem storeTxs_jobs (block_hash : String) (l : List (String × ℚ)) :
    ∀ db : DB, ((storeTxs db block_hash l).1).jobs = db.jobs := by
  induction l with
  | nil => intro db; rfl
  | cons hd tl ih =>
    intro db
    obtain ⟨a, f⟩ := hd
    simp only [storeTxs]
    cases hst : store_tx db a block_hash f with
    | error e => rfl
    | ok db' =>
      rw [ih db']
      exact store_tx_jobs hst

theorem processGroups_jobs (env : Env)
    (l : List ((Nat × Int) × List (String × Nat × Nat))) :
    ∀ db : DB, ((processGroups env db l).1).jobs = db.jobs := by
  induction l with
  | nil => intro db; rfl
  | cons hd tl ih =>
    intro db
    obtain ⟨⟨bn, ts0⟩, txs⟩ := hd
    simp only [processGroups]
    split
    · rfl
    · next p hp =>
      split
      · rfl
      · next db' hsb =>
        split
        · next db'' e0 heq =>
          have h0 := congrArg (fun q : DB × Except Err Unit => q.1.jobs) heq
          dsimp only at h0
          rw [storeTxs_jobs] at h0
          dsimp only
          rw [← h0]
          exact store_block_jobs hsb
        · next db'' u heq =>
          have h0 := congrArg (fun q : DB × Except Err Unit => q.1.jobs) heq
          dsimp only at h0
          rw [storeTxs_jobs] at h0
          rw [ih db'', ← h0]
          exact store_block_jobs hsb

/-- C8: once a delivered pending job has been moved to `processing`, any
error from a later step of the iteration (resolver, scanner, price oracle
or store write) propagates out with no further status update: the job's
persisted status in the final store is exactly "processing" — neither
rolled back to "pending" nor advanced to "completed". -/
theorem runIteration_error_leaves_processing (env : Env) (db : DB)
    (job_id : Nat) (job : JobRow) (db' : DB) (e : Err)
    (hload : db.jobs job_id = some job) (hpending : job.status = "pending")
    (herr : runIteration env db (some job_id) = (db', .error e)) :
    (db'.jobs job_id).map JobRow.status = some "processing" := by
  simp only [runIteration, hload] at herr
  rw [if_neg (by simp [hpending])] at herr
  split at herr
  · injection herr with h1 h2
    subst h1
    simp [updateJob, setProcessing, hload]
  · split at herr
    · injection herr with h1 h2
      subst h1
      simp [updateJob, setProcessing, hload]
    · split at herr
      · injection herr with h1 h2
        subst h1
        simp [updateJob, setProcessing, hload]
      · split at herr
        · next db3 e0 heq =>
          injection herr with h1 h2
          subst h1
          have h0 := congrArg (fun q : DB × Except Err Unit => q.1.jobs) heq
          dsimp only at h0
          rw [processGroups_jobs] at h0
          rw [← h0]
          simp [updateJob, setProcessing, hload]
        · next db3 u heq =>
          injection herr with h1 h2
          exact absurd h2 (by simp)

/-- C8 witness: a pending job whose resolver call fails is left in status
"processing" by the failed iteration. -/
theorem runIteration_error_leaves_processing_witness :
    (((updateJob
        ⟨fun i => if i = 1 then some ⟨0, 0, none, none, "pending"⟩ else none, [], []⟩
        1 setProcessing).jobs 1).map JobRow.status) = some "processing" :=
  runIteration_error_leaves_processing
    ⟨⟨fun _ => 0, 0, fun _ => ""⟩, fun _ _ => .error .rpc,
      fun _ => .error .rpc, fun _ => .error .price, 0⟩
    ⟨fun i => if i = 1 then some ⟨0, 0, none, none, "pending"⟩ else none, [], []⟩
    1 ⟨0, 0, none, none, "pending"⟩
    (updateJob
      ⟨fun i => if i = 1 then some ⟨0, 0, none, none, "pending"⟩ else none, [], []⟩
      1 setProcessing)
    (.fcb .fuel) rfl rfl rfl
